import Mathlib

/-!
Verification of the atomyst core (`src/atomyst.py`) against its
natural-language specification.

The module text is modelled as a list of lines, each line a `List Char`
carrying its original terminator (mirroring Python's
`source.splitlines(keepends=True)`).  The syntax front end (`ast.parse`)
is an external collaborator per the spec; its output is modelled as a
list of top-level node descriptors, and parse failure as the `.error`
case of `Except`.  Python `str` operations are modelled for ASCII text
(identifiers and source lines in scope here are ASCII).
-/

namespace Atomyst

open List

/-- Lines and raw text are lists of characters. -/
abbrev Line := List Char

/-- Whitespace characters stripped by Python `str.strip()` (ASCII range). -/
def pySpace (c : Char) : Bool :=
  c == ' ' || c == '\t' || c == '\n' || c == '\r' || c == '\x0b' || c == '\x0c'

/-- Model of Python `str.strip()`: remove leading and trailing whitespace. -/
def pyStrip (l : Line) : Line :=
  ((l.dropWhile pySpace).reverse.dropWhile pySpace).reverse

/-- Model of `len(line) - len(line.lstrip())`: width of the leading whitespace. -/
def indentWidth (l : Line) : Nat :=
  (l.takeWhile pySpace).length

/-- Model of Python `str.startswith` on character lists. -/
def startsWith (p l : Line) : Bool :=
  List.isPrefixOf p l

/-- Kind of top-level definition (`DefinitionKind` in the source). -/
inductive DefinitionKind where
  | CLASS
  | FUNCTION
  | ASYNC_FUNCTION
deriving DecidableEq

/-- A top-level definition (`Definition` in the source); lines are 1-indexed,
`end_line` inclusive, `start_line` includes decorators. -/
structure Definition where
  name : Line
  kind : DefinitionKind
  start_line : Nat
  end_line : Nat
deriving DecidableEq

/-- A file to be written (`OutputFile` in the source). -/
structure OutputFile where
  relative_path : Line
  content : Line
deriving DecidableEq

/-- The complete plan for atomizing a source file (`AtomizePlan` in the source). -/
structure AtomizePlan where
  source_name : Line
  definitions : List Definition
  output_files : List OutputFile
  import_block : Line
deriving DecidableEq

/-- Result of extracting a single definition (`ExtractionResult` in the source). -/
structure ExtractionResult where
  extracted : OutputFile
  remainder : Line
deriving DecidableEq

/-! ## Case conversion (`to_snake_case`)

`to_snake_case` applies two `re.sub` passes and lowercases:
pass 1 is `re.sub(r"(.)([A-Z][a-z]+)", r"\x7b1\x7d_\x7b2\x7d"`-style
insertion (any non-newline character followed by a capitalized word), pass 2
separates a lowercase letter or digit from a following uppercase letter.
Both are modelled with the leftmost, non-overlapping, resume-after-match
semantics of `re.sub`. -/

/-- The regex character class `[A-Z]`. -/
def isUpperA (c : Char) : Bool := 65 ≤ c.toNat && c.toNat ≤ 90

/-- The regex character class `[a-z]`. -/
def isLowerA (c : Char) : Bool := 97 ≤ c.toNat && c.toNat ≤ 122

/-- The regex character class `[0-9]`. -/
def isDigitA (c : Char) : Bool := 48 ≤ c.toNat && c.toNat ≤ 57

/-- First regex pass: at each position, an arbitrary non-newline character
followed by an uppercase letter and a maximal nonempty lowercase run gets an
underscore inserted after the first character; scanning resumes after the
match. -/
def sub1 : List Char → List Char
  | [] => []
  | [c] => [c]
  | [c, d] => [c, d]
  | c :: u :: l :: rest2 =>
    if c != '\n' && isUpperA u && isLowerA l then
      c :: '_' :: u :: l :: (rest2.takeWhile isLowerA ++ sub1 (rest2.dropWhile isLowerA))
    else
      c :: sub1 (u :: l :: rest2)
termination_by l => l.length
decreasing_by
  · have := (List.dropWhile_sublist isLowerA (l := rest2)).length_le
    simp only [List.length_cons]; omega
  · simp only [List.length_cons]; omega

/-- Second regex pass: a lowercase letter or digit followed by an uppercase
letter gets an underscore inserted between them; both characters are consumed
before scanning resumes. -/
def sub2 : List Char → List Char
  | [] => []
  | [c] => [c]
  | c :: u :: rest =>
    if (isLowerA c || isDigitA c) && isUpperA u then
      c :: '_' :: u :: sub2 rest
    else
      c :: sub2 (u :: rest)

/-- Model of `to_snake_case`: the two substitution passes, then lowercasing. -/
def to_snake_case (name : Line) : Line :=
  (sub2 (sub1 name)).map Char.toLower

/-! ## Import-block extraction (`extract_imports`) -/

/-- Scanner state of `extract_imports` (the local variables of its loop). -/
structure ImpState where
  in_imports : Bool
  paren_depth : Int
  in_type_checking : Bool
  type_checking_indent : Nat
deriving DecidableEq

/-- Detects the header of a `TYPE_CHECKING` block. -/
def isTypeCheckingHeader (stripped : Line) : Bool :=
  startsWith ("if TYPE_CHECKING").toList stripped || stripped == ("if TYPE_CHECKING:").toList

/-- Net parenthesis count of a line: `line.count("(") - line.count(")")`. -/
def parenDelta (l : Line) : Int :=
  (l.count '(' : Int) - (l.count ')' : Int)

/-- Outcome of one loop iteration of `extract_imports`: append the line and
continue, skip the line and continue, or break. -/
inductive StepOut where
  | emit (st : ImpState)
  | skip (st : ImpState)
  | stop
deriving DecidableEq

/-- The body of the `extract_imports` loop after the `TYPE_CHECKING`-block
handling (which can fall through to these rules with the block closed). -/
def importStepMain (st : ImpState) (line : Line) : StepOut :=
  let stripped := pyStrip line
  if isTypeCheckingHeader stripped then
    .emit { st with in_type_checking := true, type_checking_indent := indentWidth line,
                    in_imports := true }
  else if !st.in_imports &&
      (startsWith ("#").toList stripped || startsWith ("\"\"\"").toList stripped ||
        startsWith ['\'', '\'', '\''] stripped) then
    .emit st
  else if startsWith ("import ").toList stripped || startsWith ("from ").toList stripped then
    .emit { st with in_imports := true, paren_depth := st.paren_depth + parenDelta line }
  else if st.paren_depth > 0 then
    .emit { st with paren_depth := st.paren_depth + parenDelta line }
  else if st.in_imports && stripped == [] then
    .emit st
  else if stripped != [] &&
      !(startsWith ("import ").toList stripped || startsWith ("from ").toList stripped ||
        startsWith ("#").toList stripped) then
    .stop
  else
    .skip st

/-- One full loop iteration of `extract_imports`, including the
`TYPE_CHECKING`-block handling at the top of the loop body. -/
def importStep (st : ImpState) (line : Line) : StepOut :=
  if st.in_type_checking then
    let stripped := pyStrip line
    if stripped != [] then
      if indentWidth line > st.type_checking_indent then
        .emit st
      else
        importStepMain { st with in_type_checking := false } line
    else
      .emit st
  else
    importStepMain st line

/-- The `extract_imports` loop: fold `importStep` over the lines, collecting
emitted lines, stopping at the first `stop`. -/
def extract_imports_go (st : ImpState) : List Line → List Line
  | [] => []
  | line :: rest =>
    match importStep st line with
    | .emit st' => line :: extract_imports_go st' rest
    | .skip st' => extract_imports_go st' rest
    | .stop => []

/-- Model of `extract_imports`: scan from the initial state. -/
def extract_imports (lines : List Line) : List Line :=
  extract_imports_go ⟨false, 0, false, 0⟩ lines

/-- Number of lines the `extract_imports` scanner examines before breaking
(all of them if it never breaks). -/
def extract_imports_consumed (st : ImpState) : List Line → Nat
  | [] => 0
  | line :: rest =>
    match importStep st line with
    | .emit st' => extract_imports_consumed st' rest + 1
    | .skip st' => extract_imports_consumed st' rest + 1
    | .stop => 0

/-- Number of lines the scanner examines starting from the initial state. -/
def importsConsumed (lines : List Line) : Nat :=
  extract_imports_consumed ⟨false, 0, false, 0⟩ lines

/-! ## Boundary resolution (`find_comment_start`) -/

/-- A comment line: its stripped form starts with `#`. -/
def isCommentLine (l : Line) : Bool :=
  startsWith ("#").toList (pyStrip l)

/-- Backward walk of `find_comment_start`; the argument is `idx + 1` so that
`0` encodes Python's `idx = -1` loop exit.  Returns the adjusted 1-indexed
start line (`idx + 2` at the stopping point). -/
def find_comment_start_go (lines : List Line) : Nat → Nat
  | 0 => 1
  | k + 1 =>
    if isCommentLine (lines.getD k []) then
      find_comment_start_go lines k
    else
      k + 2

/-- Model of `find_comment_start lines start_line` for 1-indexed
`start_line ≥ 1`: walk backward from the line above the nominal start while
lines are comments. -/
def find_comment_start (lines : List Line) (start_line : Nat) : Nat :=
  find_comment_start_go lines (start_line - 1)

/-! ## File builders -/

/-- Model of `build_definition_file`: resolve the start with
`find_comment_start`, slice `lines[actual_start - 1 : end_line]`, and glue
`import_block + "\n\n" + defn_content.lstrip("\n")` under the case-converted
file name. -/
def build_definition_file (defn : Definition) (lines : List Line)
    (import_block : Line) : OutputFile :=
  let actual_start := find_comment_start lines defn.start_line
  let defn_lines := (lines.drop (actual_start - 1)).take (defn.end_line - (actual_start - 1))
  let defn_content := defn_lines.flatten
  let file_content :=
    import_block ++ ['\n', '\n'] ++ defn_content.dropWhile (fun c => c == '\n')
  { relative_path := to_snake_case defn.name ++ (".py").toList, content := file_content }

/-- Content as claim C3 words it: the shared import block, exactly one blank
separator line, then the definition's resolved line range with leading blank
lines stripped. -/
def claimedDefinitionFileContent (defn : Definition) (lines : List Line)
    (import_block : Line) : Line :=
  import_block ++ ['\n']
    ++ (((lines.drop (find_comment_start lines defn.start_line - 1)).take
          (defn.end_line - (find_comment_start lines defn.start_line - 1))).flatten.dropWhile
            (fun c => c == '\n'))

/-- The generated-file notice that `build_init_file` starts with. -/
def initNotice : Line := ("\"\"\"Auto-generated by atomyst.\"\"\"\n\n").toList

/-- One re-export line of the aggregator:
`f"from .\x7bstem\x7d import \x7bdefn.name\x7d\n"`. -/
def reexportLine (name : Line) : Line :=
  ("from .").toList ++ to_snake_case name ++ (" import ").toList ++ name ++ ['\n']

/-- The header of the `__all__` list literal. -/
def allHeader : Line := ("\n__all__ = [\n").toList

/-- One entry of the `__all__` list: `f"    \"\x7bdefn.name\x7d\",\n"`. -/
def exportEntry (name : Line) : Line :=
  ("    \"").toList ++ name ++ ("\",\n").toList

/-- The closing line of the `__all__` list. -/
def allCloser : Line := ("]\n").toList

/-- The string pieces that `build_init_file` accumulates in its local `lines`
list before joining them. -/
def build_init_pieces (definitions : List Definition) : List Line :=
  initNotice :: (definitions.map (fun d => reexportLine d.name)
    ++ [allHeader] ++ definitions.map (fun d => exportEntry d.name) ++ [allCloser])

/-- Model of `build_init_file`: the `__init__.py` re-export file. -/
def build_init_file (definitions : List Definition) : OutputFile :=
  { relative_path := ("__init__.py").toList, content := (build_init_pieces definitions).flatten }

/-- Recover the definition name from a re-export line: drop the trailing
newline, then read back from the end up to the last space.  A left inverse of
`reexportLine` on space-free names. -/
def nameOfReexport (l : Line) : Line :=
  (l.dropLast.reverse.takeWhile (fun c => c != ' ')).reverse

/-- Recover the definition name from an `__all__` entry: strip the 5-character
opening and the 3-character closing delimiters.  A left inverse of
`exportEntry`. -/
def nameOfExportEntry (l : Line) : Line :=
  ((l.drop 5).reverse.drop 3).reverse

/-- The ASCII alphanumeric characters (letters and digits). -/
def isAlnum (c : Char) : Bool := isUpperA c || isLowerA c || isDigitA c

/-- Whether a list starts with a lowercase letter. -/
def headIsLower : List Char → Bool
  | e :: _ => isLowerA e
  | [] => false

/-- Separator insertion as claim C9 words it: an underscore goes in at exactly
(a) each boundary where a lowercase letter or digit is followed by an
uppercase letter, and (b) each boundary where a run of two or more uppercase
letters is followed by a capitalized word (an uppercase letter followed by a
lowercase letter), splitting before the last capital of the run. -/
def specIns : List Char → List Char
  | [] => []
  | [c] => [c]
  | c :: d :: rest =>
    if (isLowerA c || isDigitA c) && isUpperA d then
      c :: '_' :: specIns (d :: rest)
    else if isUpperA c && isUpperA d && headIsLower rest then
      c :: '_' :: specIns (d :: rest)
    else
      c :: specIns (d :: rest)

/-- Case conversion as claim C9 words it: lowercase the name and insert
separators at exactly the (a)/(b) boundaries. -/
def spec_snake_case (name : Line) : Line :=
  (specIns name).map Char.toLower

/-- Whether a list starts with an uppercase letter followed by a lowercase
letter (the shape that lets the first regex pass match at its head). -/
def beginsUL : List Char → Bool
  | u :: l :: _ => isUpperA u && isLowerA l
  | _ => false

/-- Whether a list is empty or starts with a non-lowercase character. -/
def headNotLower : List Char → Bool
  | [] => true
  | h :: _ => !isLowerA h

/-! ## Orchestration (`extract_one`, `plan_atomization`)

Both run the syntax front end once; here the front end's output is the
`definitions` argument (the module's top-level definition descriptors in
source order) and `lines` is `source.splitlines(keepends=True)`, so that the
original module text is `lines.flatten`. -/

/-- The first-match-by-name search loop of `extract_one`. -/
def findDef (definitions : List Definition) (name : Line) : Option Definition :=
  definitions.find? (fun d => d.name == name)

/-- Model of `extract_one`: extract a single definition by name, or `none`
when no top-level definition has that name. -/
def extract_one (definitions : List Definition) (lines : List Line)
    (name : Line) : Option ExtractionResult :=
  let import_block := (extract_imports lines).flatten
  match findDef definitions name with
  | none => none
  | some target =>
    let extracted := build_definition_file target lines import_block
    let actual_start := find_comment_start lines target.start_line
    let before := lines.take (actual_start - 1)
    let after := lines.drop target.end_line
    some { extracted := extracted, remainder := (before ++ after).flatten }

/-- Model of `plan_atomization`: one definition file per definition, then the
aggregator file. -/
def plan_atomization (definitions : List Definition) (lines : List Line)
    (source_name : Line) : AtomizePlan :=
  let import_block := (extract_imports lines).flatten
  let definition_files := definitions.map (fun d => build_definition_file d lines import_block)
  let init_file := build_init_file definitions
  { source_name := source_name
    definitions := definitions
    output_files := definition_files ++ [init_file]
    import_block := import_block }

/-! ## The syntax front end and parse failure

`ast.parse` is an external collaborator (spec section 6).  A parse attempt
either fails with a `SyntaxError`-class signal or yields the module's
top-level statement nodes; `extract_definitions` converts the definition
nodes and propagates the failure untouched (the source has no handler). -/

/-- A `SyntaxError`-class parse failure signal from the front end. -/
structure ParseFailure where
  msg : Line
deriving DecidableEq

/-- A top-level statement node as delivered by the front end: kind, name,
decorator line numbers, `lineno`, and optional `end_lineno`. -/
inductive PyNode where
  | classDef (name : Line) (decorator_linenos : List Nat) (lineno : Nat) (end_lineno : Option Nat)
  | functionDef (name : Line) (decorator_linenos : List Nat) (lineno : Nat) (end_lineno : Option Nat)
  | asyncFunctionDef (name : Line) (decorator_linenos : List Nat) (lineno : Nat)
      (end_lineno : Option Nat)
  | otherStmt
deriving DecidableEq

/-- Model of the inner `node_to_definition` of `extract_definitions`:
`start = min((d.lineno for d in decorators), default=node.lineno)`. -/
def node_to_definition : PyNode → Option Definition
  | .classDef name decs lineno endl =>
    match endl with
    | none => none
    | some e => some ⟨name, .CLASS, (decs.min?).getD lineno, e⟩
  | .functionDef name decs lineno endl =>
    match endl with
    | none => none
    | some e => some ⟨name, .FUNCTION, (decs.min?).getD lineno, e⟩
  | .asyncFunctionDef name decs lineno endl =>
    match endl with
    | none => none
    | some e => some ⟨name, .ASYNC_FUNCTION, (decs.min?).getD lineno, e⟩
  | .otherStmt => none

/-- Model of `extract_definitions` over the front end's outcome: a parse
failure propagates, a parsed module yields its definition descriptors. -/
def extract_definitions (parsed : Except ParseFailure (List PyNode)) :
    Except ParseFailure (List Definition) :=
  parsed.map (fun nodes => nodes.filterMap node_to_definition)

/-- `plan_atomization` as reached from raw text: the front end's outcome is
threaded through `extract_definitions`, so a parse failure propagates and no
plan is produced. -/
def plan_atomizationE (parsed : Except ParseFailure (List PyNode)) (lines : List Line)
    (source_name : Line) : Except ParseFailure AtomizePlan :=
  (extract_definitions parsed).map (fun ds => plan_atomization ds lines source_name)

/-- `extract_one` as reached from raw text, with parse failure propagated. -/
def extract_oneE (parsed : Except ParseFailure (List PyNode)) (lines : List Line)
    (name : Line) : Except ParseFailure (Option ExtractionResult) :=
  (extract_definitions parsed).map (fun ds => extract_one ds lines name)

/-! # Helper lemmas -/

theorem find_comment_start_go_pos (lines : List Line) :
    ∀ k, 1 ≤ find_comment_start_go lines k := by
  intro k
  induction k with
  | zero => simp [find_comment_start_go]
  | succ k ih =>
    simp only [find_comment_start_go]
    by_cases h : isCommentLine (lines.getD k []) = true
    · rwa [if_pos h]
    · rw [if_neg h]; omega

theorem find_comment_start_go_le (lines : List Line) :
    ∀ k, find_comment_start_go lines k ≤ k + 1 := by
  intro k
  induction k with
  | zero => simp [find_comment_start_go]
  | succ k ih =>
    simp only [find_comment_start_go]
    by_cases h : isCommentLine (lines.getD k []) = true
    · rw [if_pos h]; omega
    · rw [if_neg h]

theorem find_comment_start_go_comments (lines : List Line) :
    ∀ k j, find_comment_start_go lines k ≤ j + 1 → j + 1 ≤ k →
      isCommentLine (lines.getD j []) = true := by
  intro k
  induction k with
  | zero => intro j _ hj; omega
  | succ k ih =>
    intro j h1 h2
    simp only [find_comment_start_go] at h1
    by_cases h : isCommentLine (lines.getD k []) = true
    · rw [if_pos h] at h1
      rcases Nat.lt_or_ge j k with hlt | hge
      · exact ih j h1 hlt
      · have : j = k := by omega
        subst this; exact h
    · rw [if_neg h] at h1
      omega

theorem find_comment_start_go_stop (lines : List Line) :
    ∀ k, find_comment_start_go lines k = 1 ∨
      (2 ≤ find_comment_start_go lines k ∧
        isCommentLine (lines.getD (find_comment_start_go lines k - 2) []) = false) := by
  intro k
  induction k with
  | zero => left; simp [find_comment_start_go]
  | succ k ih =>
    simp only [find_comment_start_go]
    by_cases h : isCommentLine (lines.getD k []) = true
    · rw [if_pos h]; exact ih
    · rw [if_neg h]
      right
      refine ⟨by omega, ?_⟩
      have hk : k + 2 - 2 = k := by omega
      rw [hk]
      simpa using h

theorem extract_one_eq_none_iff_findDef (definitions : List Definition) (lines : List Line)
    (name : Line) :
    extract_one definitions lines name = none ↔ findDef definitions name = none := by
  unfold extract_one
  cases h : findDef definitions name <;> simp [h]

theorem extract_one_eq_some_of_findDef (definitions : List Definition) (lines : List Line)
    (name : Line) (d : Definition) (h : findDef definitions name = some d) :
    extract_one definitions lines name
      = some { extracted := build_definition_file d lines (extract_imports lines).flatten,
               remainder := (lines.take (find_comment_start lines d.start_line - 1)
                 ++ lines.drop d.end_line).flatten } := by
  unfold extract_one
  rw [h]

theorem findDef_eq_none_iff (definitions : List Definition) (name : Line) :
    findDef definitions name = none ↔ ∀ d ∈ definitions, d.name ≠ name := by
  unfold findDef
  rw [List.find?_eq_none]
  simp

theorem findDef_first (pre : List Definition) (d : Definition) (post : List Definition)
    (name : Line) (hname : d.name = name) (hpre : ∀ e ∈ pre, e.name ≠ name) :
    findDef (pre ++ d :: post) name = some d := by
  induction pre with
  | nil =>
    unfold findDef
    simp [List.find?, hname]
  | cons e pre ih =>
    unfold findDef at *
    have he : (e.name == name) = false := by
      simpa using hpre e (by simp)
    simp only [List.cons_append, List.find?, he]
    exact ih (fun x hx => hpre x (by simp [hx]))

/-! # Claims -/

/-- C4: `find_comment_start` absorbs exactly the contiguous uninterrupted run
of comment lines directly above the nominal start: the returned value `r`
satisfies `1 ≤ r ≤ s`, every line from `r` up to `s - 1` (1-indexed) is a
comment, and the line `r - 1` just below `r` (when `r > 1`) is not a comment
(a blank line or a non-comment, non-blank line), so the walk stopped there
without consuming it and a comment run separated by a blank line is never
absorbed. -/
theorem find_comment_start_absorbs_comment_run (lines : List Line) (s : Nat)
    (h1 : 1 ≤ s) (h2 : s ≤ lines.length + 1) :
    (1 ≤ find_comment_start lines s ∧ find_comment_start lines s ≤ s) ∧
    (∀ j : Nat, find_comment_start lines s ≤ j + 1 → j + 2 ≤ s →
      isCommentLine (lines.getD j []) = true) ∧
    (find_comment_start lines s = 1 ∨
      (2 ≤ find_comment_start lines s ∧
        isCommentLine (lines.getD (find_comment_start lines s - 2) []) = false)) := by
  refine ⟨⟨find_comment_start_go_pos lines _, ?_⟩, ?_, ?_⟩
  · have := find_comment_start_go_le lines (s - 1)
    unfold find_comment_start
    omega
  · intro j hj1 hj2
    exact find_comment_start_go_comments lines (s - 1) j hj1 (by omega)
  · exact find_comment_start_go_stop lines (s - 1)

theorem find_comment_start_absorbs_comment_run_witness :
    ((1:Nat) ≤ 5 ∧ (5:Nat)
        ≤ [("import os\n").toList, ("\n").toList, ("# C1\n").toList, ("# C2\n").toList,
            ("class Foo:\n").toList, ("    pass\n").toList].length + 1) ∧
    find_comment_start
        [("import os\n").toList, ("\n").toList, ("# C1\n").toList, ("# C2\n").toList,
          ("class Foo:\n").toList, ("    pass\n").toList] 5 = 3 ∧
    isCommentLine
        ([("import os\n").toList, ("\n").toList, ("# C1\n").toList, ("# C2\n").toList,
          ("class Foo:\n").toList, ("    pass\n").toList].getD 3 []) = true := by
  refine ⟨by decide, by decide, ?_⟩
  exact (find_comment_start_absorbs_comment_run
    [("import os\n").toList, ("\n").toList, ("# C1\n").toList, ("# C2\n").toList,
      ("class Foo:\n").toList, ("    pass\n").toList] 5 (by decide) (by decide)).2.1 3
    (by decide) (by decide)

/-- C5: for every module (including one with zero definitions), the plan has
`output_files.length = definitions.length + 1`, with one definition file per
definition in source order followed by exactly one aggregator file as the
last element. -/
theorem plan_output_files_shape (definitions : List Definition) (lines : List Line)
    (source_name : Line) :
    (plan_atomization definitions lines source_name).output_files.length
        = definitions.length + 1 ∧
    (plan_atomization definitions lines source_name).output_files
        = definitions.map
            (fun d => build_definition_file d lines (extract_imports lines).flatten)
          ++ [build_init_file definitions] ∧
    (plan_atomization definitions lines source_name).output_files.getLast?
        = some (build_init_file definitions) := by
  refine ⟨by simp [plan_atomization], rfl, ?_⟩
  simp [plan_atomization]

/-- C1: when `extract_one` finds the named definition `d` (with a 1-indexed
start not past its end), splicing the removed resolved range (comment-adjusted
resolved start through `end_line`) back between the remainder's lines before
the resolved start and those after `end_line` reconstructs the original
module text byte-for-byte. -/
theorem extract_one_round_trip (definitions : List Definition) (lines : List Line)
    (name : Line) (d : Definition)
    (hfind : findDef definitions name = some d)
    (hpos : 1 ≤ d.start_line) (hle : d.start_line ≤ d.end_line) :
    extract_one definitions lines name
        = some { extracted := build_definition_file d lines (extract_imports lines).flatten,
                 remainder := (lines.take (find_comment_start lines d.start_line - 1)).flatten
                   ++ (lines.drop d.end_line).flatten } ∧
    (lines.take (find_comment_start lines d.start_line - 1)).flatten
      ++ ((lines.drop (find_comment_start lines d.start_line - 1)).take
            (d.end_line - (find_comment_start lines d.start_line - 1))).flatten
      ++ (lines.drop d.end_line).flatten
        = lines.flatten := by
  constructor
  · rw [extract_one_eq_some_of_findDef definitions lines name d hfind]
    simp
  · have hb := find_comment_start_go_le lines (d.start_line - 1)
    have ha : find_comment_start lines d.start_line ≤ d.start_line := by
      unfold find_comment_start
      omega
    rw [← List.flatten_append, ← List.flatten_append]
    congr 1
    have hsum : (find_comment_start lines d.start_line - 1)
        + (d.end_line - (find_comment_start lines d.start_line - 1)) = d.end_line := by
      omega
    rw [← List.take_add, hsum, List.take_append_drop]

theorem extract_one_round_trip_witness :
    (findDef [({ name := ("Foo").toList, kind := .CLASS, start_line := 2, end_line := 3 }
          : Definition)] ("Foo").toList
        = some { name := ("Foo").toList, kind := .CLASS, start_line := 2, end_line := 3 }) ∧
    ([("# hi\n").toList, ("class Foo:\n").toList, ("    pass\n").toList].take
        (find_comment_start
          [("# hi\n").toList, ("class Foo:\n").toList, ("    pass\n").toList] 2 - 1)).flatten
      ++ (([("# hi\n").toList, ("class Foo:\n").toList, ("    pass\n").toList].drop
            (find_comment_start
              [("# hi\n").toList, ("class Foo:\n").toList, ("    pass\n").toList] 2 - 1)).take
            (3 - (find_comment_start
              [("# hi\n").toList, ("class Foo:\n").toList, ("    pass\n").toList] 2 - 1))).flatten
      ++ ([("# hi\n").toList, ("class Foo:\n").toList, ("    pass\n").toList].drop 3).flatten
        = [("# hi\n").toList, ("class Foo:\n").toList, ("    pass\n").toList].flatten := by
  refine ⟨by decide, ?_⟩
  exact (extract_one_round_trip
    [{ name := ("Foo").toList, kind := .CLASS, start_line := 2, end_line := 3 }]
    [("# hi\n").toList, ("class Foo:\n").toList, ("    pass\n").toList]
    (("Foo").toList) { name := ("Foo").toList, kind := .CLASS, start_line := 2, end_line := 3 }
    (by decide) (by decide) (by decide)).2

/-- C7: `extract_one` returns the explicit no-result outcome `none` exactly
when no top-level definition has the requested name; when at least one does,
the first such definition in source order is the one extracted. -/
theorem extract_one_not_found_first_match (definitions : List Definition)
    (lines : List Line) (name : Line) :
    (extract_one definitions lines name = none ↔ ∀ d ∈ definitions, d.name ≠ name) ∧
    (∀ pre d post, definitions = pre ++ d :: post → d.name = name →
      (∀ e ∈ pre, e.name ≠ name) →
      extract_one definitions lines name
        = some { extracted := build_definition_file d lines (extract_imports lines).flatten,
                 remainder := (lines.take (find_comment_start lines d.start_line - 1)
                   ++ lines.drop d.end_line).flatten }) := by
  constructor
  · rw [extract_one_eq_none_iff_findDef]
    exact findDef_eq_none_iff definitions name
  · intro pre d post hsplit hname hpre
    subst hsplit
    exact extract_one_eq_some_of_findDef _ lines name d (findDef_first pre d post name hname hpre)

theorem extract_one_not_found_first_match_witness :
    extract_one
        [({ name := ("a").toList, kind := .FUNCTION, start_line := 1, end_line := 1 }
            : Definition),
          { name := ("b").toList, kind := .FUNCTION, start_line := 2, end_line := 2 }]
        [("def a(): pass\n").toList, ("def b(): pass\n").toList] ("b").toList
      = some { extracted :=
                 build_definition_file
                   { name := ("b").toList, kind := .FUNCTION, start_line := 2, end_line := 2 }
                   [("def a(): pass\n").toList, ("def b(): pass\n").toList]
                   (extract_imports
                     [("def a(): pass\n").toList, ("def b(): pass\n").toList]).flatten,
               remainder :=
                 ([("def a(): pass\n").toList, ("def b(): pass\n").toList].take
                     (find_comment_start
                       [("def a(): pass\n").toList, ("def b(): pass\n").toList] 2 - 1)
                   ++ [("def a(): pass\n").toList, ("def b(): pass\n").toList].drop 2).flatten } ∧
    extract_one
        [({ name := ("a").toList, kind := .FUNCTION, start_line := 1, end_line := 1 }
            : Definition)]
        [("def a(): pass\n").toList] ("zz").toList = none := by
  constructor
  · exact (extract_one_not_found_first_match _ _ _).2
      [{ name := ("a").toList, kind := .FUNCTION, start_line := 1, end_line := 1 }]
      { name := ("b").toList, kind := .FUNCTION, start_line := 2, end_line := 2 } []
      rfl rfl (by decide)
  · exact (extract_one_not_found_first_match _ _ _).1.mpr (by decide)

/-- C10: single extraction and whole-module planning agree: for the first
definition named `name` (at position `pre.length` in source order), the
`OutputFile` extracted by `extract_one` is byte-identical (same
`relative_path`, same `content`) to the definition file that
`plan_atomization` places at that same position for the same module. -/
theorem extract_one_agrees_with_plan (definitions : List Definition) (lines : List Line)
    (source_name name : Line) (pre : List Definition) (d : Definition)
    (post : List Definition)
    (hsplit : definitions = pre ++ d :: post) (hname : d.name = name)
    (hpre : ∀ e ∈ pre, e.name ≠ name) :
    (extract_one definitions lines name).map (fun er => er.extracted)
        = some (build_definition_file d lines (extract_imports lines).flatten) ∧
    (plan_atomization definitions lines source_name).output_files[pre.length]?
        = some (build_definition_file d lines (extract_imports lines).flatten) := by
  subst hsplit
  constructor
  · rw [extract_one_eq_some_of_findDef _ lines name d (findDef_first pre d post name hname hpre)]
    rfl
  · show ((pre ++ d :: post).map
        (fun e => build_definition_file e lines (extract_imports lines).flatten)
          ++ [build_init_file (pre ++ d :: post)])[pre.length]? = _
    rw [List.map_append, List.map_cons, List.append_assoc]
    rw [List.getElem?_append_right (by simp)]
    simp

theorem extract_one_agrees_with_plan_witness :
    (extract_one
        [({ name := ("Foo").toList, kind := .CLASS, start_line := 1, end_line := 2 }
            : Definition)]
        [("class Foo:\n").toList, ("    pass\n").toList] ("Foo").toList).map
          (fun er => er.extracted)
      = some (build_definition_file
          { name := ("Foo").toList, kind := .CLASS, start_line := 1, end_line := 2 }
          [("class Foo:\n").toList, ("    pass\n").toList]
          (extract_imports [("class Foo:\n").toList, ("    pass\n").toList]).flatten) ∧
    (plan_atomization
        [({ name := ("Foo").toList, kind := .CLASS, start_line := 1, end_line := 2 }
            : Definition)]
        [("class Foo:\n").toList, ("    pass\n").toList]
        ("mod.py").toList).output_files[(0:Nat)]?
      = some (build_definition_file
          { name := ("Foo").toList, kind := .CLASS, start_line := 1, end_line := 2 }
          [("class Foo:\n").toList, ("    pass\n").toList]
          (extract_imports [("class Foo:\n").toList, ("    pass\n").toList]).flatten) :=
  extract_one_agrees_with_plan
    [{ name := ("Foo").toList, kind := .CLASS, start_line := 1, end_line := 2 }]
    [("class Foo:\n").toList, ("    pass\n").toList] (("mod.py").toList) (("Foo").toList)
    [] { name := ("Foo").toList, kind := .CLASS, start_line := 1, end_line := 2 } []
    rfl rfl (by decide)

/-- C8: a parse failure from the front end propagates unchanged through
`extract_definitions` into both `plan_atomization` and `extract_one`, with no
partial result; for parseable input both produce their result from the parsed
definitions. -/
theorem parse_failure_propagates (parsed : Except ParseFailure (List PyNode))
    (lines : List Line) (source_name name : Line) :
    (∀ e, parsed = .error e →
      plan_atomizationE parsed lines source_name = .error e ∧
      extract_oneE parsed lines name = .error e) ∧
    (∀ nodes, parsed = .ok nodes →
      plan_atomizationE parsed lines source_name
        = .ok (plan_atomization (nodes.filterMap node_to_definition) lines source_name) ∧
      extract_oneE parsed lines name
        = .ok (extract_one (nodes.filterMap node_to_definition) lines name)) := by
  constructor
  · rintro e rfl
    exact ⟨rfl, rfl⟩
  · rintro nodes rfl
    exact ⟨rfl, rfl⟩

theorem extract_imports_go_emit (st st' : ImpState) (line : Line) (rest : List Line)
    (h : importStep st line = .emit st') :
    extract_imports_go st (line :: rest) = line :: extract_imports_go st' rest := by
  simp [extract_imports_go, h]

theorem extract_imports_go_skip (st st' : ImpState) (line : Line) (rest : List Line)
    (h : importStep st line = .skip st') :
    extract_imports_go st (line :: rest) = extract_imports_go st' rest := by
  simp [extract_imports_go, h]

theorem extract_imports_go_break (st : ImpState) (line : Line) (rest : List Line)
    (h : importStep st line = .stop) :
    extract_imports_go st (line :: rest) = [] := by
  simp [extract_imports_go, h]

theorem extract_imports_consumed_emit (st st' : ImpState) (line : Line) (rest : List Line)
    (h : importStep st line = .emit st') :
    extract_imports_consumed st (line :: rest) = extract_imports_consumed st' rest + 1 := by
  simp [extract_imports_consumed, h]

theorem extract_imports_consumed_skip (st st' : ImpState) (line : Line) (rest : List Line)
    (h : importStep st line = .skip st') :
    extract_imports_consumed st (line :: rest) = extract_imports_consumed st' rest + 1 := by
  simp [extract_imports_consumed, h]

theorem extract_imports_consumed_break (st : ImpState) (line : Line) (rest : List Line)
    (h : importStep st line = .stop) :
    extract_imports_consumed st (line :: rest) = 0 := by
  simp [extract_imports_consumed, h]

theorem extract_imports_go_sublist_take (st : ImpState) (lines : List Line) :
    extract_imports_go st lines <+ lines.take (extract_imports_consumed st lines) := by
  induction lines generalizing st with
  | nil => simp [extract_imports_go, extract_imports_consumed]
  | cons line rest ih =>
    cases h : importStep st line with
    | emit st' =>
      rw [extract_imports_go_emit st st' line rest h,
        extract_imports_consumed_emit st st' line rest h, List.take_succ_cons]
      exact (ih st').cons₂ line
    | skip st' =>
      rw [extract_imports_go_skip st st' line rest h,
        extract_imports_consumed_skip st st' line rest h, List.take_succ_cons]
      exact (ih st').cons line
    | stop =>
      rw [extract_imports_go_break st line rest h,
        extract_imports_consumed_break st line rest h]
      simp

theorem importStepMain_stop_props (st : ImpState) (line : Line)
    (h : importStepMain st line = .stop) :
    pyStrip line ≠ [] ∧
    startsWith ("import ").toList (pyStrip line) = false ∧
    startsWith ("from ").toList (pyStrip line) = false ∧
    startsWith ("#").toList (pyStrip line) = false := by
  simp only [importStepMain] at h
  split_ifs at h with h1 h2 h3 h4 h5 h6 <;> try simp at h
  simp only [Bool.and_eq_true, bne_iff_ne, ne_eq, Bool.not_eq_true',
    Bool.or_eq_false_iff] at h6
  exact ⟨h6.1, h6.2.1.1, h6.2.1.2, h6.2.2⟩

theorem importStep_stop_props (st : ImpState) (line : Line)
    (h : importStep st line = .stop) :
    pyStrip line ≠ [] ∧
    startsWith ("import ").toList (pyStrip line) = false ∧
    startsWith ("from ").toList (pyStrip line) = false ∧
    startsWith ("#").toList (pyStrip line) = false := by
  simp only [importStep] at h
  split_ifs at h with h1 h2 h3 <;> try exact importStepMain_stop_props _ line h
  all_goals simp at h

theorem extract_imports_stop_line (st : ImpState) (lines : List Line)
    (h : extract_imports_consumed st lines < lines.length) :
    pyStrip (lines.getD (extract_imports_consumed st lines) []) ≠ [] ∧
    startsWith ("import ").toList
        (pyStrip (lines.getD (extract_imports_consumed st lines) [])) = false ∧
    startsWith ("from ").toList
        (pyStrip (lines.getD (extract_imports_consumed st lines) [])) = false ∧
    startsWith ("#").toList
        (pyStrip (lines.getD (extract_imports_consumed st lines) [])) = false := by
  induction lines generalizing st with
  | nil => simp [extract_imports_consumed] at h
  | cons line rest ih =>
    cases hs : importStep st line with
    | emit st' =>
      rw [extract_imports_consumed_emit st st' line rest hs] at h ⊢
      rw [List.getD_cons_succ]
      exact ih st' (by simpa using h)
    | skip st' =>
      rw [extract_imports_consumed_skip st st' line rest hs] at h ⊢
      rw [List.getD_cons_succ]
      exact ih st' (by simpa using h)
    | stop =>
      rw [extract_imports_consumed_break st line rest hs] at h ⊢
      rw [List.getD_cons_zero]
      exact importStep_stop_props st line hs

/-- C2 counterexample: on a module whose first line is blank, `extract_imports`
skips the blank line but still collects the following import line, so
the import block is not a contiguous prefix of the module's lines, refuting
the claim as stated. -/
theorem extract_imports_not_a_prefix_counterexample :
    ¬ (extract_imports [("\n").toList, ("import os\n").toList]
        <+: [("\n").toList, ("import os\n").toList]) := by
  decide

/-- C2 (amended): the import block is an order- and content-preserving
subsequence of the module's lines drawn entirely from the region strictly
before the scanner's stopping line (it is not in general contiguous: a blank
line before the first import, or a comment line after it, is skipped without
being included); the stopping line itself, when the scan stops, is non-blank,
is not a comment, and does not start an import statement. -/
theorem extract_imports_sublist_before_stop (lines : List Line) :
    extract_imports lines <+ lines.take (importsConsumed lines) ∧
    (importsConsumed lines < lines.length →
      pyStrip (lines.getD (importsConsumed lines) []) ≠ [] ∧
      startsWith ("import ").toList (pyStrip (lines.getD (importsConsumed lines) [])) = false ∧
      startsWith ("from ").toList (pyStrip (lines.getD (importsConsumed lines) [])) = false ∧
      startsWith ("#").toList (pyStrip (lines.getD (importsConsumed lines) [])) = false) :=
  ⟨extract_imports_go_sublist_take _ lines, fun h => extract_imports_stop_line _ lines h⟩

theorem extract_imports_sublist_before_stop_witness :
    extract_imports [("import os\n").toList, ("x = 1\n").toList]
        <+ [("import os\n").toList, ("x = 1\n").toList].take
            (importsConsumed [("import os\n").toList, ("x = 1\n").toList]) ∧
    pyStrip ([("import os\n").toList, ("x = 1\n").toList].getD
        (importsConsumed [("import os\n").toList, ("x = 1\n").toList]) []) ≠ [] :=
  ⟨(extract_imports_sublist_before_stop [("import os\n").toList, ("x = 1\n").toList]).1,
    ((extract_imports_sublist_before_stop [("import os\n").toList, ("x = 1\n").toList]).2
      (by decide)).1⟩

/-- C3 counterexample: `build_definition_file` glues `import_block + "\n\n"`,
so after a newline-terminated import block the definition is preceded by two
blank lines, not the one blank separator line the claim states. -/
theorem build_definition_file_one_separator_counterexample :
    (build_definition_file
        { name := ("Foo").toList, kind := .CLASS, start_line := 2, end_line := 3 }
        [("import os\n").toList, ("class Foo:\n").toList, ("    pass\n").toList]
        (("import os\n").toList)).content
      ≠ claimedDefinitionFileContent
          { name := ("Foo").toList, kind := .CLASS, start_line := 2, end_line := 3 }
          [("import os\n").toList, ("class Foo:\n").toList, ("    pass\n").toList]
          (("import os\n").toList) ∧
    (build_definition_file
        { name := ("Foo").toList, kind := .CLASS, start_line := 2, end_line := 3 }
        [("import os\n").toList, ("class Foo:\n").toList, ("    pass\n").toList]
        (("import os\n").toList)).content
      = ("import os\n\n\nclass Foo:\n    pass\n").toList := by
  constructor
  · decide
  · decide

/-- C3 (amended): the built file's name is the case-converted definition name
plus the module's `.py` extension, and its content is the shared import block
followed by a two-newline separator (yielding two blank lines when the import
block ends with a line terminator) followed by the definition's resolved line
range (comment-adjusted resolved start through `end_line`, inclusive) with
leading newline characters stripped. -/
theorem build_definition_file_content_spec (defn : Definition) (lines : List Line)
    (import_block : Line) :
    (build_definition_file defn lines import_block).relative_path
        = to_snake_case defn.name ++ (".py").toList ∧
    (build_definition_file defn lines import_block).content
        = import_block ++ ['\n', '\n']
          ++ (((lines.drop (find_comment_start lines defn.start_line - 1)).take
                (defn.end_line - (find_comment_start lines defn.start_line - 1))).flatten.dropWhile
                  (fun c => c == '\n')) :=
  ⟨rfl, rfl⟩

theorem takeWhile_append_all (p : Char → Bool) (xs ys : List Char)
    (h : ∀ x ∈ xs, p x = true) :
    (xs ++ ys).takeWhile p = xs ++ ys.takeWhile p := by
  induction xs with
  | nil => simp
  | cons a t ih =>
    simp only [List.cons_append, List.takeWhile_cons, h a (by simp), if_true]
    rw [ih (fun x hx => h x (by simp [hx]))]

theorem nameOfReexport_reexportLine (n : Line) (h : ∀ c ∈ n, (c != ' ') = true) :
    nameOfReexport (reexportLine n) = n := by
  unfold nameOfReexport reexportLine
  rw [List.dropLast_concat]
  rw [List.reverse_append, List.reverse_append, List.reverse_append]
  have hrev : (" import ").toList.reverse = ' ' :: ['t', 'r', 'o', 'p', 'm', 'i', ' '] := by
    decide
  rw [hrev]
  rw [takeWhile_append_all _ n.reverse _ (fun x hx => h x (List.mem_reverse.mp hx))]
  simp [List.takeWhile_cons]

theorem nameOfExportEntry_exportEntry (n : Line) :
    nameOfExportEntry (exportEntry n) = n := by
  unfold nameOfExportEntry exportEntry
  rw [List.append_assoc]
  have h1 := List.drop_left (("    \"").toList) (n ++ ("\",\n").toList)
  rw [show ("    \"").toList.length = 5 from by decide] at h1
  rw [h1, List.reverse_append]
  have h2 := List.drop_left (("\",\n").toList.reverse) n.reverse
  rw [show ("\",\n").toList.reverse.length = 3 from by decide] at h2
  rw [h2, List.reverse_reverse]

theorem count_reexport_eq_one (definitions : List Definition) (d : Definition)
    (hnodup : (definitions.map (fun e => e.name)).Nodup)
    (hids : ∀ e ∈ definitions, ∀ c ∈ e.name, (c != ' ') = true)
    (hd : d ∈ definitions) :
    (definitions.map (fun e => reexportLine e.name)).count (reexportLine d.name) = 1 := by
  induction definitions with
  | nil => cases hd
  | cons e rest ih =>
    rw [List.map_cons] at hnodup ⊢
    have hhead := (List.nodup_cons.mp hnodup).1
    have htail := (List.nodup_cons.mp hnodup).2
    rcases List.mem_cons.mp hd with rfl | hdr
    · rw [List.count_cons_self]
      have hz : reexportLine d.name ∉ rest.map (fun e => reexportLine e.name) := by
        intro hmem
        obtain ⟨x, hx, heq⟩ := List.mem_map.mp hmem
        have hxd : x.name = d.name := by
          have h1 := nameOfReexport_reexportLine x.name (hids x (List.mem_cons_of_mem _ hx))
          have h2 := nameOfReexport_reexportLine d.name (hids d hd)
          rw [← h1, heq, h2]
        exact hhead (hxd ▸ List.mem_map_of_mem (fun e => e.name) hx)
      rw [List.count_eq_zero.mpr hz]
    · have hne : reexportLine d.name ≠ reexportLine e.name := by
        intro heq
        have hed : d.name = e.name := by
          have h1 := nameOfReexport_reexportLine d.name (hids d hd)
          have h2 := nameOfReexport_reexportLine e.name (hids e (List.mem_cons_self e rest))
          rw [← h1, heq, h2]
        exact hhead (hed ▸ List.mem_map_of_mem (fun e => e.name) hdr)
      rw [List.count_cons_of_ne hne]
      exact ih htail (fun x hx => hids x (List.mem_cons_of_mem _ hx)) hdr

theorem count_export_eq_one (definitions : List Definition) (d : Definition)
    (hnodup : (definitions.map (fun e => e.name)).Nodup)
    (hd : d ∈ definitions) :
    (definitions.map (fun e => exportEntry e.name)).count (exportEntry d.name) = 1 := by
  induction definitions with
  | nil => cases hd
  | cons e rest ih =>
    rw [List.map_cons] at hnodup ⊢
    have hhead := (List.nodup_cons.mp hnodup).1
    have htail := (List.nodup_cons.mp hnodup).2
    rcases List.mem_cons.mp hd with rfl | hdr
    · rw [List.count_cons_self]
      have hz : exportEntry d.name ∉ rest.map (fun e => exportEntry e.name) := by
        intro hmem
        obtain ⟨x, hx, heq⟩ := List.mem_map.mp hmem
        have hxd : x.name = d.name := by
          rw [← nameOfExportEntry_exportEntry x.name, heq, nameOfExportEntry_exportEntry]
        exact hhead (hxd ▸ List.mem_map_of_mem (fun e => e.name) hx)
      rw [List.count_eq_zero.mpr hz]
    · have hne : exportEntry d.name ≠ exportEntry e.name := by
        intro heq
        have hed : d.name = e.name := by
          rw [← nameOfExportEntry_exportEntry d.name, heq, nameOfExportEntry_exportEntry]
        exact hhead (hed ▸ List.mem_map_of_mem (fun e => e.name) hdr)
      rw [List.count_cons_of_ne hne]
      exact ih htail hdr

/-- C6: over definitions with pairwise-distinct identifier names, the
aggregator file's pieces are the fixed generated-file notice, one re-export
line per definition in source order, the `__all__` header, one export entry
per definition in the same order, and the closing bracket; each definition's
re-export line and export entry occurs exactly once. -/
theorem build_init_file_complete (definitions : List Definition)
    (hnodup : (definitions.map (fun d => d.name)).Nodup)
    (hids : ∀ d ∈ definitions, ∀ c ∈ d.name, (c != ' ') = true) :
    build_init_pieces definitions
        = initNotice :: (definitions.map (fun d => reexportLine d.name)
            ++ [allHeader] ++ definitions.map (fun d => exportEntry d.name) ++ [allCloser]) ∧
    (build_init_file definitions).content = (build_init_pieces definitions).flatten ∧
    (∀ d ∈ definitions,
      (definitions.map (fun e => reexportLine e.name)).count (reexportLine d.name) = 1 ∧
      (definitions.map (fun e => exportEntry e.name)).count (exportEntry d.name) = 1) := by
  refine ⟨rfl, rfl, ?_⟩
  intro d hd
  exact ⟨count_reexport_eq_one definitions d hnodup hids hd,
    count_export_eq_one definitions d hnodup hd⟩

theorem build_init_file_complete_witness :
    (([({ name := ("Foo").toList, kind := .CLASS, start_line := 1, end_line := 2 }
          : Definition),
        { name := ("BazQux").toList, kind := .CLASS, start_line := 4, end_line := 5 }].map
          (fun e => reexportLine e.name)).count
        (reexportLine
          ({ name := ("Foo").toList, kind := .CLASS, start_line := 1, end_line := 2 }
            : Definition).name) = 1) ∧
    (([({ name := ("Foo").toList, kind := .CLASS, start_line := 1, end_line := 2 }
          : Definition),
        { name := ("BazQux").toList, kind := .CLASS, start_line := 4, end_line := 5 }].map
          (fun e => exportEntry e.name)).count
        (exportEntry
          ({ name := ("Foo").toList, kind := .CLASS, start_line := 1, end_line := 2 }
            : Definition).name) = 1) :=
  (build_init_file_complete
    [{ name := ("Foo").toList, kind := .CLASS, start_line := 1, end_line := 2 },
      { name := ("BazQux").toList, kind := .CLASS, start_line := 4, end_line := 5 }]
    (by decide) (by decide)).2.2
    { name := ("Foo").toList, kind := .CLASS, start_line := 1, end_line := 2 } (by decide)

theorem parse_failure_propagates_witness :
    plan_atomizationE (.error { msg := ("bad input").toList }) [] (("m.py").toList)
        = .error { msg := ("bad input").toList } ∧
    extract_oneE (.error { msg := ("bad input").toList }) [] (("f").toList)
        = .error { msg := ("bad input").toList } :=
  (parse_failure_propagates (.error { msg := ("bad input").toList }) [] (("m.py").toList)
    (("f").toList)).1 { msg := ("bad input").toList } rfl

/-! ## Character-class facts and step equations for the case converter -/

theorem isAlnum_of_isLowerA {c : Char} (h : isLowerA c = true) : isAlnum c = true := by
  simp [isAlnum, h]

theorem not_upperA_of_lowerA {c : Char} (h : isLowerA c = true) : isUpperA c = false := by
  simp only [isLowerA, Bool.and_eq_true, decide_eq_true_eq] at h
  simp only [isUpperA, Bool.and_eq_false_iff, decide_eq_false_iff_not]
  omega

theorem not_lowerA_of_upperA {c : Char} (h : isUpperA c = true) : isLowerA c = false := by
  simp only [isUpperA, Bool.and_eq_true, decide_eq_true_eq] at h
  simp only [isLowerA, Bool.and_eq_false_iff, decide_eq_false_iff_not]
  omega

theorem not_digitA_of_upperA {c : Char} (h : isUpperA c = true) : isDigitA c = false := by
  simp only [isUpperA, Bool.and_eq_true, decide_eq_true_eq] at h
  simp only [isDigitA, Bool.and_eq_false_iff, decide_eq_false_iff_not]
  omega

theorem not_digitA_of_lowerA {c : Char} (h : isLowerA c = true) : isDigitA c = false := by
  simp only [isLowerA, Bool.and_eq_true, decide_eq_true_eq] at h
  simp only [isDigitA, Bool.and_eq_false_iff, decide_eq_false_iff_not]
  omega

theorem not_upperA_of_digitA {c : Char} (h : isDigitA c = true) : isUpperA c = false := by
  simp only [isDigitA, Bool.and_eq_true, decide_eq_true_eq] at h
  simp only [isUpperA, Bool.and_eq_false_iff, decide_eq_false_iff_not]
  omega

theorem not_lowerA_of_digitA {c : Char} (h : isDigitA c = true) : isLowerA c = false := by
  simp only [isDigitA, Bool.and_eq_true, decide_eq_true_eq] at h
  simp only [isLowerA, Bool.and_eq_false_iff, decide_eq_false_iff_not]
  omega

theorem ne_newline_of_isAlnum {c : Char} (h : isAlnum c = true) : (c != '\n') = true := by
  rcases eq_or_ne c '\n' with rfl | hne
  · exact absurd h (by decide)
  · simpa using hne

theorem alnum_cases {c : Char} (h : isAlnum c = true) :
    isUpperA c = true ∨ isLowerA c = true ∨ isDigitA c = true := by
  simpa [isAlnum, or_assoc] using h

/-- The second pass steps over a matching pair, consuming both characters. -/
theorem sub2_match {c u : Char} (rest : List Char)
    (h1 : (isLowerA c || isDigitA c) = true) (h2 : isUpperA u = true) :
    sub2 (c :: u :: rest) = c :: '_' :: u :: sub2 rest := by
  simp [sub2, h1, h2]

/-- The second pass advances one character over a non-matching pair. -/
theorem sub2_nomatch {c u : Char} (rest : List Char)
    (h : ((isLowerA c || isDigitA c) && isUpperA u) = false) :
    sub2 (c :: u :: rest) = c :: sub2 (u :: rest) := by
  simp [sub2, h]

/-- Boundary (a) of the claim: insert between a lowercase/digit and an
uppercase letter. -/
theorem specIns_insert_a {c d : Char} (rest : List Char)
    (h1 : (isLowerA c || isDigitA c) = true) (h2 : isUpperA d = true) :
    specIns (c :: d :: rest) = c :: '_' :: specIns (d :: rest) := by
  simp [specIns, h1, h2]

/-- Boundary (b) of the claim: insert before the last capital of an uppercase
run that is followed by a capitalized word. -/
theorem specIns_insert_b {c d e : Char} (r : List Char)
    (ha : ((isLowerA c || isDigitA c) && isUpperA d) = false)
    (h1 : isUpperA c = true) (h2 : isUpperA d = true) (h3 : isLowerA e = true) :
    specIns (c :: d :: e :: r) = c :: '_' :: specIns (d :: e :: r) := by
  simp [specIns, headIsLower, ha, h1, h2, h3]

/-- No boundary: the claim inserts nothing between `c` and `d`. -/
theorem specIns_skip {c d : Char} (rest : List Char)
    (ha : ((isLowerA c || isDigitA c) && isUpperA d) = false)
    (hb : (isUpperA c && isUpperA d && headIsLower rest) = false) :
    specIns (c :: d :: rest) = c :: specIns (d :: rest) := by
  simp [specIns, ha, hb]

/-- The first pass rewrites a match: group 1, an underscore, the capitalized
word (greedy lowercase run), then the scan resumes past the match. -/
theorem sub1_match {c u l : Char} (rest2 : List Char) (hc : (c != '\n') = true)
    (hu : isUpperA u = true) (hl : isLowerA l = true) :
    sub1 (c :: u :: l :: rest2)
      = c :: '_' :: u :: l :: (rest2.takeWhile isLowerA ++ sub1 (rest2.dropWhile isLowerA)) := by
  simp [sub1, hc, hu, hl]

/-- The first pass advances one character when no match starts here. -/
theorem sub1_nomatch {c u l : Char} (rest2 : List Char)
    (h : (c != '\n' && isUpperA u && isLowerA l) = false) :
    sub1 (c :: u :: l :: rest2) = c :: sub1 (u :: l :: rest2) := by
  simp [sub1, h]

/-- The first pass preserves the head character when the tail cannot start a
match. -/
theorem sub1_head_cons (x : Char) (xs : List Char) (h : beginsUL xs = false) :
    sub1 (x :: xs) = x :: sub1 xs := by
  match xs with
  | [] => simp [sub1]
  | [d] => simp [sub1]
  | d :: e :: r =>
    have hde : (isUpperA d && isLowerA e) = false := by simpa [beginsUL] using h
    apply sub1_nomatch
    by_cases hd : isUpperA d = true <;> by_cases he : isLowerA e = true <;>
      simp_all

theorem headNotLower_dropWhile (l : List Char) :
    headNotLower (l.dropWhile isLowerA) = true := by
  induction l with
  | nil => rfl
  | cons a t ih =>
    by_cases h : isLowerA a = true
    · simpa [List.dropWhile, h] using ih
    · simp [List.dropWhile, h, headNotLower]

theorem mem_takeWhile_isLowerA {x : Char} {l : List Char}
    (h : x ∈ l.takeWhile isLowerA) : isLowerA x = true := by
  induction l with
  | nil => simp [List.takeWhile] at h
  | cons a t ih =>
    by_cases ha : isLowerA a = true
    · rw [List.takeWhile_cons, if_pos ha] at h
      rcases List.mem_cons.mp h with rfl | h'
      · exact ha
      · exact ih h'
    · rw [List.takeWhile_cons, if_neg ha] at h
      cases h

theorem mem_of_mem_dropWhile_isLowerA {x : Char} {l : List Char}
    (h : x ∈ l.dropWhile isLowerA) : x ∈ l := by
  induction l with
  | nil => simpa [List.dropWhile] using h
  | cons a t ih =>
    by_cases ha : isLowerA a = true
    · rw [List.dropWhile_cons, if_pos ha] at h
      exact List.mem_cons_of_mem _ (ih h)
    · rw [List.dropWhile_cons, if_neg ha] at h
      exact h

theorem and_true_parts {a b : Bool} (h : (a && b) = true) : a = true ∧ b = true := by
  simp at h; exact h

theorem and3_false_right {a b c : Bool} (h : (b && c) = false) : (a && b && c) = false := by
  cases a <;> cases b <;> cases c <;> simp_all

theorem beginsUL_shape {t : List Char} (h : beginsUL t = true) :
    ∃ u l r, t = u :: l :: r ∧ isUpperA u = true ∧ isLowerA l = true := by
  cases t with
  | nil => simp [beginsUL] at h
  | cons u t1 =>
    cases t1 with
    | nil => simp [beginsUL] at h
    | cons l r =>
      obtain ⟨h1, h2⟩ := and_true_parts (by simpa [beginsUL] using h)
      exact ⟨u, l, r, rfl, h1, h2⟩

theorem hb_of_not_beginsUL {c d : Char} {r : List Char} (hA : beginsUL (d :: r) = false) :
    (isUpperA c && isUpperA d && headIsLower r) = false := by
  cases r with
  | nil => simp [headIsLower]
  | cons e r4 =>
    have hde : (isUpperA d && isLowerA e) = false := by simpa [beginsUL] using hA
    by_cases hd : isUpperA d = true <;> by_cases he : isLowerA e = true <;>
      simp_all [headIsLower]

/-- The two passes and the claim's insertion rule agree on any two-character
suffix. -/
theorem sub2_specIns_pair (x y : Char) : sub2 [x, y] = specIns [x, y] := by
  by_cases hxy : ((isLowerA x || isDigitA x) && isUpperA y) = true
  · obtain ⟨h1, h2⟩ := and_true_parts hxy
    rw [sub2_match _ h1 h2, specIns_insert_a _ h1 h2]
    simp [sub2, specIns]
  · rw [sub2_nomatch _ (by simpa using hxy),
      specIns_skip _ (by simpa using hxy) (by simp [headIsLower])]
    simp [sub2, specIns]

/-- Combined induction for the case converter on alphanumeric input: the
composition of the two passes agrees with the claim's boundary-insertion rule.
Statement one resumes after a first-pass match, statement two resumes after a
single consumed character, and statement three is the whole converter. -/
theorem snake_spec_aux :
    ∀ n : Nat,
    (∀ l run rem, 1 + run.length + rem.length ≤ n → isLowerA l = true →
      (∀ x ∈ run, isLowerA x = true) → (∀ x ∈ rem, isAlnum x = true) →
      headNotLower rem = true →
      sub2 (l :: (run ++ sub1 rem)) = specIns (l :: (run ++ rem))) ∧
    (∀ c t, 1 + t.length ≤ n → isAlnum c = true → (∀ x ∈ t, isAlnum x = true) →
      beginsUL t = false →
      sub2 (c :: sub1 t) = specIns (c :: t)) ∧
    (∀ s, s.length ≤ n → (∀ x ∈ s, isAlnum x = true) → sub2 (sub1 s) = specIns s) := by
  intro n
  induction n using Nat.strong_induction_on with
  | _ n IH =>
    have hseam : ∀ l run rem, 1 + run.length + rem.length ≤ n → isLowerA l = true →
        (∀ x ∈ run, isLowerA x = true) → (∀ x ∈ rem, isAlnum x = true) →
        headNotLower rem = true →
        sub2 (l :: (run ++ sub1 rem)) = specIns (l :: (run ++ rem)) := by
      intro l run rem hm hl hrun hrem hhead
      have hn1 : n - 1 < n := by
        simp only [List.length_cons] at hm
        omega
      cases run with
      | cons x run' =>
        have hx : isLowerA x = true := hrun x (by simp)
        have hxu : isUpperA x = false := not_upperA_of_lowerA hx
        rw [List.cons_append, List.cons_append]
        rw [sub2_nomatch _ (by simp [hxu])]
        rw [@specIns_skip l x (run' ++ rem) (by simp [hxu])
          (by simp [not_upperA_of_lowerA hl])]
        exact congrArg (List.cons l) ((IH (n - 1) hn1).1 x run' rem
          (by simp only [List.length_cons] at hm; omega) hx
          (fun y hy => hrun y (List.mem_cons_of_mem _ hy)) hrem hhead)
      | nil =>
        rw [List.nil_append, List.nil_append]
        cases rem with
        | nil => simp [sub1, sub2, specIns]
        | cons h rest₂ =>
          have hh : isAlnum h = true := hrem h (by simp)
          have hhl : isLowerA h = false := by simpa [headNotLower] using hhead
          have hrest₂ : ∀ z ∈ rest₂, isAlnum z = true :=
            fun z hz => hrem z (by simp [hz])
          rcases alnum_cases hh with hup | hlow | hdig
          · by_cases hA : beginsUL rest₂ = true
            · obtain ⟨u₂, l₂, r₃, rfl, hu₂, hl₂⟩ := beginsUL_shape hA
              have hr₃ : ∀ z ∈ r₃, isAlnum z = true :=
                fun z hz => hrest₂ z (by simp [hz])
              have hlen : (r₃.takeWhile isLowerA).length + (r₃.dropWhile isLowerA).length
                  = r₃.length := by
                rw [← List.length_append, List.takeWhile_append_dropWhile]
              rw [sub1_match _ (ne_newline_of_isAlnum hh) hu₂ hl₂]
              rw [sub2_match _ (by simp [hl]) hup]
              rw [sub2_nomatch _ (by simp [show (isLowerA '_' || isDigitA '_') = false
                from by decide])]
              rw [sub2_nomatch _ (by simp [not_upperA_of_lowerA hl₂])]
              rw [(IH (n - 1) hn1).1 l₂ (r₃.takeWhile isLowerA) (r₃.dropWhile isLowerA)
                (by simp only [List.length_cons, List.length_nil] at hm; omega)
                hl₂ (fun z hz => mem_takeWhile_isLowerA hz)
                (fun z hz => hr₃ z (mem_of_mem_dropWhile_isLowerA hz))
                (headNotLower_dropWhile r₃)]
              rw [List.takeWhile_append_dropWhile]
              rw [@specIns_insert_a l h (u₂ :: l₂ :: r₃) (by simp [hl]) hup]
              rw [@specIns_insert_b h u₂ l₂ r₃
                (by simp [not_lowerA_of_upperA hup, not_digitA_of_upperA hup]) hup hu₂ hl₂]
              rw [@specIns_skip u₂ l₂ r₃ (by simp [not_upperA_of_lowerA hl₂])
                (by simp [not_upperA_of_lowerA hl₂])]
            · have hA' : beginsUL rest₂ = false := by simpa using hA
              rw [sub1_head_cons h rest₂ hA']
              rw [sub2_match _ (by simp [hl]) hup]
              rw [(IH (n - 1) hn1).2.2 rest₂
                (by simp only [List.length_cons, List.length_nil] at hm; omega) hrest₂]
              rw [@specIns_insert_a l h rest₂ (by simp [hl]) hup]
              cases rest₂ with
              | nil => simp [specIns]
              | cons d r₃ =>
                rw [@specIns_skip h d r₃
                  (by simp [not_lowerA_of_upperA hup, not_digitA_of_upperA hup])
                  (hb_of_not_beginsUL hA')]
          · rw [hlow] at hhl; cases hhl
          · by_cases hA : beginsUL rest₂ = true
            · obtain ⟨u₂, l₂, r₃, rfl, hu₂, hl₂⟩ := beginsUL_shape hA
              have hr₃ : ∀ z ∈ r₃, isAlnum z = true :=
                fun z hz => hrest₂ z (by simp [hz])
              have hlen : (r₃.takeWhile isLowerA).length + (r₃.dropWhile isLowerA).length
                  = r₃.length := by
                rw [← List.length_append, List.takeWhile_append_dropWhile]
              rw [sub1_match _ (ne_newline_of_isAlnum hh) hu₂ hl₂]
              rw [sub2_nomatch _ (by simp [not_upperA_of_digitA hdig])]
              rw [sub2_nomatch _ (by simp [show isUpperA '_' = false from by decide])]
              rw [sub2_nomatch _ (by simp [show (isLowerA '_' || isDigitA '_') = false
                from by decide])]
              rw [sub2_nomatch _ (by simp [not_upperA_of_lowerA hl₂])]
              rw [(IH (n - 1) hn1).1 l₂ (r₃.takeWhile isLowerA) (r₃.dropWhile isLowerA)
                (by simp only [List.length_cons, List.length_nil] at hm; omega)
                hl₂ (fun z hz => mem_takeWhile_isLowerA hz)
                (fun z hz => hr₃ z (mem_of_mem_dropWhile_isLowerA hz))
                (headNotLower_dropWhile r₃)]
              rw [List.takeWhile_append_dropWhile]
              rw [@specIns_skip l h (u₂ :: l₂ :: r₃) (by simp [not_upperA_of_digitA hdig])
                (by simp [not_upperA_of_lowerA hl])]
              rw [@specIns_insert_a h u₂ (l₂ :: r₃) (by simp [hdig]) hu₂]
              rw [@specIns_skip u₂ l₂ r₃ (by simp [not_upperA_of_lowerA hl₂])
                (by simp [not_upperA_of_lowerA hl₂])]
            · have hA' : beginsUL rest₂ = false := by simpa using hA
              rw [sub1_head_cons h rest₂ hA']
              rw [sub2_nomatch _ (by simp [not_upperA_of_digitA hdig])]
              rw [(IH (n - 1) hn1).2.1 h rest₂
                (by simp only [List.length_cons, List.length_nil] at hm; omega)
                hh hrest₂ hA']
              rw [@specIns_skip l h rest₂ (by simp [not_upperA_of_digitA hdig])
                (by simp [not_upperA_of_lowerA hl])]
    have hcons : ∀ c t, 1 + t.length ≤ n → isAlnum c = true →
        (∀ x ∈ t, isAlnum x = true) → beginsUL t = false →
        sub2 (c :: sub1 t) = specIns (c :: t) := by
      intro c t hm hc ht hBU
      have hn1 : n - 1 < n := by simp only [List.length_cons] at hm; omega
      cases t with
      | nil => simp [sub1, sub2, specIns]
      | cons x t1 =>
        have hx : isAlnum x = true := ht x (by simp)
        cases t1 with
        | nil =>
          rw [show sub1 [x] = [x] from by simp [sub1]]
          exact sub2_specIns_pair c x
        | cons y t2 =>
          have hxy : (isUpperA x && isLowerA y) = false := by simpa [beginsUL] using hBU
          cases t2 with
          | nil =>
            rw [show sub1 [x, y] = [x, y] from by simp [sub1]]
            by_cases hcx : ((isLowerA c || isDigitA c) && isUpperA x) = true
            · obtain ⟨h1, h2⟩ := and_true_parts hcx
              rw [sub2_match _ h1 h2, @specIns_insert_a c x [y] h1 h2]
              rw [@specIns_skip x y []
                (by simp [not_lowerA_of_upperA h2, not_digitA_of_upperA h2])
                (by simp [headIsLower])]
              simp [sub2, specIns]
            · rw [sub2_nomatch _ (by simpa using hcx)]
              rw [@specIns_skip c x [y] (by simpa using hcx)
                (hb_of_not_beginsUL (show beginsUL (x :: [y]) = false from by
                  simpa [beginsUL] using hxy))]
              rw [sub2_specIns_pair x y]
          | cons r₁ rest'' =>
            have hrest : ∀ z ∈ y :: r₁ :: rest'', isAlnum z = true :=
              fun z hz => ht z (by simp [hz])
            by_cases hM : (isUpperA y && isLowerA r₁) = true
            · obtain ⟨hy, hr₁⟩ := and_true_parts hM
              have hlen : (rest''.takeWhile isLowerA).length
                  + (rest''.dropWhile isLowerA).length = rest''.length := by
                rw [← List.length_append, List.takeWhile_append_dropWhile]
              have hseamIH := hseam r₁ (rest''.takeWhile isLowerA)
                (rest''.dropWhile isLowerA)
                (by simp only [List.length_cons] at hm; omega)
                hr₁ (fun z hz => mem_takeWhile_isLowerA hz)
                (fun z hz => hrest z (List.mem_cons_of_mem _
                  (List.mem_cons_of_mem _ (mem_of_mem_dropWhile_isLowerA hz))))
                (headNotLower_dropWhile rest'')
              rw [sub1_match _ (ne_newline_of_isAlnum hx) hy hr₁]
              by_cases hcx : ((isLowerA c || isDigitA c) && isUpperA x) = true
              · obtain ⟨h1, h2⟩ := and_true_parts hcx
                rw [sub2_match _ h1 h2]
                rw [sub2_nomatch _ (by simp [show (isLowerA '_' || isDigitA '_') = false
                  from by decide])]
                rw [sub2_nomatch _ (by simp [not_upperA_of_lowerA hr₁])]
                rw [hseamIH, List.takeWhile_append_dropWhile]
                rw [@specIns_insert_a c x (y :: r₁ :: rest'') h1 h2]
                rw [@specIns_insert_b x y r₁ rest''
                  (by simp [not_lowerA_of_upperA h2, not_digitA_of_upperA h2]) h2 hy hr₁]
                rw [@specIns_skip y r₁ rest'' (by simp [not_upperA_of_lowerA hr₁])
                  (by simp [not_upperA_of_lowerA hr₁])]
              · rw [sub2_nomatch _ (by simpa using hcx)]
                rw [sub2_nomatch _ (by simp [show isUpperA '_' = false from by decide])]
                rw [sub2_nomatch _ (by simp [show (isLowerA '_' || isDigitA '_') = false
                  from by decide])]
                rw [sub2_nomatch _ (by simp [not_upperA_of_lowerA hr₁])]
                rw [hseamIH, List.takeWhile_append_dropWhile]
                rw [@specIns_skip c x (y :: r₁ :: rest'') (by simpa using hcx)
                  (by simp [headIsLower, not_lowerA_of_upperA hy])]
                rcases alnum_cases hx with hxu | hxl | hxd
                · rw [@specIns_insert_b x y r₁ rest''
                    (by simp [not_lowerA_of_upperA hxu, not_digitA_of_upperA hxu])
                    hxu hy hr₁]
                  rw [@specIns_skip y r₁ rest'' (by simp [not_upperA_of_lowerA hr₁])
                    (by simp [not_upperA_of_lowerA hr₁])]
                · rw [@specIns_insert_a x y (r₁ :: rest'') (by simp [hxl]) hy]
                  rw [@specIns_skip y r₁ rest'' (by simp [not_upperA_of_lowerA hr₁])
                    (by simp [not_upperA_of_lowerA hr₁])]
                · rw [@specIns_insert_a x y (r₁ :: rest'') (by simp [hxd]) hy]
                  rw [@specIns_skip y r₁ rest'' (by simp [not_upperA_of_lowerA hr₁])
                    (by simp [not_upperA_of_lowerA hr₁])]
            · have hM2 : (isUpperA y && isLowerA r₁) = false := by simpa using hM
              have hM' : (x != '\n' && isUpperA y && isLowerA r₁) = false :=
                and3_false_right hM2
              rw [sub1_nomatch _ hM']
              by_cases hcx : ((isLowerA c || isDigitA c) && isUpperA x) = true
              · obtain ⟨h1, h2⟩ := and_true_parts hcx
                rw [sub2_match _ h1 h2]
                rw [(IH (n - 1) hn1).2.2 (y :: r₁ :: rest'')
                  (by simp only [List.length_cons] at hm ⊢; omega) hrest]
                rw [@specIns_insert_a c x (y :: r₁ :: rest'') h1 h2]
                rw [@specIns_skip x y (r₁ :: rest'')
                  (by simp [not_lowerA_of_upperA h2, not_digitA_of_upperA h2])
                  (and3_false_right hM2)]
              · rw [sub2_nomatch _ (by simpa using hcx)]
                rw [(IH (n - 1) hn1).2.1 x (y :: r₁ :: rest'')
                  (by simp only [List.length_cons] at hm ⊢; omega) hx hrest
                  (show beginsUL (y :: r₁ :: rest'') = false from by
                    simpa [beginsUL] using hM2)]
                rw [@specIns_skip c x (y :: r₁ :: rest'') (by simpa using hcx)
                  (hb_of_not_beginsUL hBU)]
    have hmain : ∀ s, s.length ≤ n → (∀ x ∈ s, isAlnum x = true) →
        sub2 (sub1 s) = specIns s := by
      intro s hm hall
      cases s with
      | nil => simp [sub1, sub2, specIns]
      | cons c s1 =>
        have hc : isAlnum c = true := hall c (by simp)
        cases s1 with
        | nil => simp [sub1, sub2, specIns]
        | cons u s2 =>
          cases s2 with
          | nil =>
            rw [show sub1 [c, u] = [c, u] from by simp [sub1]]
            exact sub2_specIns_pair c u
          | cons l rest =>
            have hrest : ∀ z ∈ rest, isAlnum z = true :=
              fun z hz => hall z (by simp [hz])
            by_cases hH : (isUpperA u && isLowerA l) = true
            · obtain ⟨hu, hl⟩ := and_true_parts hH
              have hlen : (rest.takeWhile isLowerA).length
                  + (rest.dropWhile isLowerA).length = rest.length := by
                rw [← List.length_append, List.takeWhile_append_dropWhile]
              rw [sub1_match _ (ne_newline_of_isAlnum hc) hu hl]
              rw [sub2_nomatch _ (by simp [show isUpperA '_' = false from by decide])]
              rw [sub2_nomatch _ (by simp [show (isLowerA '_' || isDigitA '_') = false
                from by decide])]
              rw [sub2_nomatch _ (by simp [not_upperA_of_lowerA hl])]
              rw [hseam l (rest.takeWhile isLowerA) (rest.dropWhile isLowerA)
                (by simp only [List.length_cons] at hm; omega)
                hl (fun z hz => mem_takeWhile_isLowerA hz)
                (fun z hz => hrest z (mem_of_mem_dropWhile_isLowerA hz))
                (headNotLower_dropWhile rest)]
              rw [List.takeWhile_append_dropWhile]
              rcases alnum_cases hc with hcu | hcl | hcd
              · rw [@specIns_insert_b c u l rest
                  (by simp [not_lowerA_of_upperA hcu, not_digitA_of_upperA hcu]) hcu hu hl]
                rw [@specIns_skip u l rest
                  (by simp [not_lowerA_of_upperA hu, not_digitA_of_upperA hu])
                  (by simp [not_upperA_of_lowerA hl])]
              · rw [@specIns_insert_a c u (l :: rest) (by simp [hcl]) hu]
                rw [@specIns_skip u l rest
                  (by simp [not_lowerA_of_upperA hu, not_digitA_of_upperA hu])
                  (by simp [not_upperA_of_lowerA hl])]
              · rw [@specIns_insert_a c u (l :: rest) (by simp [hcd]) hu]
                rw [@specIns_skip u l rest
                  (by simp [not_lowerA_of_upperA hu, not_digitA_of_upperA hu])
                  (by simp [not_upperA_of_lowerA hl])]
            · have hH' : (c != '\n' && isUpperA u && isLowerA l) = false :=
                and3_false_right (by simpa using hH)
              rw [sub1_nomatch _ hH']
              exact hcons c (u :: l :: rest)
                (by simp only [List.length_cons] at hm ⊢; omega) hc
                (fun z hz => hall z (by simp [hz]))
                (by simpa [beginsUL] using hH)
    exact ⟨hseam, hcons, hmain⟩

/-- C9 counterexample: on the identifier `Foo_Bar`, whose underscore directly
precedes a capitalized word, the first regex pass matches the underscore as
its "any character" group and inserts another underscore, yielding
`foo__bar`; the claim's boundary rule yields `foo_bar`, so the claim as
stated (over every identifier) fails. -/
theorem to_snake_case_counterexample :
    to_snake_case ("Foo_Bar").toList ≠ spec_snake_case ("Foo_Bar").toList ∧
    to_snake_case ("Foo_Bar").toList = ("foo__bar").toList ∧
    spec_snake_case ("Foo_Bar").toList = ("foo_bar").toList := by
  have h2 : to_snake_case ("Foo_Bar").toList = ("foo__bar").toList := by
    unfold to_snake_case
    rw [show sub1 ("Foo_Bar").toList = ("Foo__Bar").toList from by simp +decide [sub1]]
    decide
  refine ⟨?_, h2, by decide⟩
  rw [h2]
  decide

/-- C9 (amended): restricted to identifiers made of ASCII letters and digits
only (no underscores), `to_snake_case` lowercases the name and inserts a
separator exactly at (a) each boundary where a lowercase letter or digit is
followed by an uppercase letter and (b) each boundary where a run of two or
more uppercase letters is followed by a capitalized word, splitting before
the last capital of the run. -/
theorem to_snake_case_spec (name : Line) (h : ∀ x ∈ name, isAlnum x = true) :
    to_snake_case name = spec_snake_case name := by
  unfold to_snake_case spec_snake_case
  rw [(snake_spec_aux name.length).2.2 name le_rfl h]

theorem to_snake_case_spec_witness :
    to_snake_case ("MyHTTPClient").toList = spec_snake_case ("MyHTTPClient").toList ∧
    to_snake_case ("MyHTTPClient").toList = ("my_http_client").toList := by
  refine ⟨to_snake_case_spec (("MyHTTPClient").toList) (by decide), ?_⟩
  unfold to_snake_case
  rw [show sub1 ("MyHTTPClient").toList = ("MyHTTP_Client").toList from by
    simp +decide [sub1]]
  decide

end Atomyst
